import Mathlib

/-!
Shallow embedding of the lc3vm sources (main.go and its unnamed variant,
which holds the full event loop with the bounds check).  Go uint16 values
are modelled as Nat with an explicit % 65536 wherever the Go code can
overflow (uint16 addition and uint16 left shifts).  Go slice indexing,
which panics when the index is out of range, is modelled with Option:
none stands for a runtime panic.  The two global slices, memory (length
math.MaxUint16 = 65535, allocated once in main) and registers (length
rCN = 10), are modelled as functions from Nat together with those fixed
length bounds.
-/

namespace LC3

/-- Register indices, from the Register const block (r0 = iota, ...). -/
def r0 : Nat := 0

def r1 : Nat := 1

def r7 : Nat := 7

/-- rPC, the program counter register index. -/
def rPC : Nat := 8

/-- rCD, the condition flag register index. -/
def rCD : Nat := 9

/-- rCN, the register count: registers = make([]uint16, rCN). -/
def rCN : Nat := 10

/-- flPOS = 1 << 0. -/
def flPOS : Nat := 1

/-- flZRO = 1 << 1. -/
def flZRO : Nat := 2

/-- flNEG = 1 << 2. -/
def flNEG : Nat := 4

/-- rKBSR = 0xFE00, declared in the RegisterMM const block (never used). -/
def rKBSR : Nat := 0xFE00

/-- rKBDR = 0xFE02, declared in the RegisterMM const block (never used). -/
def rKBDR : Nat := 0xFE02

/-- pcStart = 0x3000. -/
def pcStart : Nat := 0x3000

/-- Length of the memory slice: make([]uint16, math.MaxUint16). -/
def memLen : Nat := 65535

/-- The memory slice contents, index to stored word. -/
abbrev Mem := Nat → Nat

/-- The registers slice contents, index to stored word. -/
abbrev Regs := Nat → Nat

/-- func read(address uint16) uint16 \x7b return memory[address] \x7d.
    Out of range indexing is a Go panic, modelled as none. -/
def read (m : Mem) (address : Nat) : Option Nat :=
  if address < memLen then some (m address) else none

/-- func write(address uint16, value uint16) \x7b memory[address] = value \x7d. -/
def write (m : Mem) (address value : Nat) : Option Mem :=
  if address < memLen then some (fun j => if j = address then value else m j) else none

/-- Indexing registers[i], a slice of length rCN. -/
def rget (regs : Regs) (i : Nat) : Option Nat :=
  if i < rCN then some (regs i) else none

/-- Assignment registers[i] = v, a slice of length rCN. -/
def rset (regs : Regs) (i v : Nat) : Option Regs :=
  if i < rCN then some (fun j => if j = i then v else regs j) else none

/-- func decode(r uint16): returns
    r >> 12, (r >> 9) & 0x7, (r >> 6) & 0x7, (r >> 5) & 0x1, r & 0x1F,
    the same five bit ranges for every instruction. -/
def decode (r : Nat) : Nat × Nat × Nat × Nat × Nat :=
  (r >>> 12, (r >>> 9) &&& 0x7, (r >>> 6) &&& 0x7, (r >>> 5) &&& 0x1, r &&& 0x1F)

/-- func signExtend(x uint16, count uint) uint16: when the sign bit of the
    count-bit field is set, x is replaced wholesale by 0xFFFF << count
    (a uint16 shift, hence % 65536); otherwise x is returned unchanged.
    Callers would pass count in 5..11, so Nat truncated subtraction in
    count - 1 agrees with the Go uint arithmetic for every relevant count. -/
def signExtend (x : Nat) (count : Nat) : Nat :=
  if (x >>> (count - 1)) &&& 0x1 = 0x1 then (0xFFFF <<< count) % 65536 else x

/-- func swap(x uint16) uint16 \x7b return x<<8 | x>>8 \x7d, with the
    uint16 left shift truncated % 65536. -/
def swap (x : Nat) : Nat :=
  ((x <<< 8) % 65536) ||| (x >>> 8)

/-- func updateFlag(f uint16): reads registers[f] and stores flZRO, flNEG
    or flPOS into registers[rCD] according to that value. -/
def updateFlag (regs : Regs) (f : Nat) : Option Regs :=
  (rget regs f).bind fun v =>
    if v = 0 then rset regs rCD flZRO
    else if v >>> 15 = 1 then rset regs rCD flNEG
    else rset regs rCD flPOS

/-- The global state mutated by the event loop: the memory slice and the
    registers slice. -/
structure VM where
  memory : Mem
  registers : Regs

/-- Case 0x1 of the switch, the Add instruction: stores
    registers[srcA] + srcB (flag set, immediate operand) or
    registers[srcA] + registers[srcB] (flag clear) into registers[dst]
    with uint16 wraparound, then calls updateFlag(dst). -/
def executeAdd (regs : Regs) (dst srcA flag srcB : Nat) : Option Regs :=
  (if flag = 0x1 then
    (rget regs srcA).bind fun a => rset regs dst ((a + srcB) % 65536)
  else
    (rget regs srcA).bind fun a =>
      (rget regs srcB).bind fun b => rset regs dst ((a + b) % 65536)
  ).bind fun regs2 => updateFlag regs2 dst

/-- The switch statement of the event loop, acting on the registers after
    the PC pre-increment and on the five decoded operand fields.  Memory
    is never touched by any case.  The Bool result is the running flag
    after the case: every case except 0xF and the default leaves
    running = true, and case 0x1 (Add) is the only case with a body. -/
def execute (regs : Regs) (op dst srcA flag srcB : Nat) : Option (Regs × Bool) :=
  if op = 0x0 then some (regs, true)
  else if op = 0x1 then
    (executeAdd regs dst srcA flag srcB).map fun regs3 => (regs3, true)
  else if op = 0x2 then some (regs, true)
  else if op = 0x3 then some (regs, true)
  else if op = 0x4 then some (regs, true)
  else if op = 0x5 then some (regs, true)
  else if op = 0x6 then some (regs, true)
  else if op = 0x7 then some (regs, true)
  else if op = 0x8 then some (regs, true)
  else if op = 0x9 then some (regs, true)
  else if op = 0xA then some (regs, true)
  else if op = 0xB then some (regs, true)
  else if op = 0xC then some (regs, true)
  else if op = 0xD then some (regs, true)
  else if op = 0xE then some (regs, true)
  else if op = 0xF then some (regs, false)
  else some (regs, false)

/-- One iteration of the event loop of the variant with the bounds check:
    pre-increment the PC (uint16 wraparound), break out of the loop when
    the new PC reaches len(memory), otherwise fetch, decode into the five
    operand fields, and execute the switch.  The Bool result tells
    whether the loop continues; none is a panic. -/
def stepBody (vm : VM) : Option (VM × Bool) :=
  (rget vm.registers rPC).bind fun pc0 =>
    let pc := (pc0 + 1) % 65536
    (rset vm.registers rPC pc).bind fun regs =>
      if memLen ≤ pc then
        some (⟨vm.memory, regs⟩, false)
      else
        (read vm.memory pc).bind fun instruction =>
          let d := decode instruction
          (execute regs d.1 d.2.1 d.2.2.1 d.2.2.2.1 d.2.2.2.2).bind fun res =>
            some (⟨vm.memory, res.1⟩, res.2)

/-- Outcome of driving the event loop with a fuel bound. -/
inductive RunOutcome where
  | finished : VM → RunOutcome
  | panicked : RunOutcome
  | fuelOut : RunOutcome

/-- Drive the event loop for at most fuel iterations. -/
def run (fuel : Nat) (vm : VM) : RunOutcome :=
  match fuel with
  | 0 => RunOutcome.fuelOut
  | Nat.succ fuel =>
    match stepBody vm with
    | none => RunOutcome.panicked
    | some (vm1, false) => RunOutcome.finished vm1
    | some (vm1, true) => run fuel vm1

/-- Initial state of the end-to-end scenario of claim C4: the Add
    encoding 0x1024 stored at 0x3000, R1 = 1, PC = 0x2FFF. -/
def e2eVM : VM :=
  ⟨fun a => if a = 0x3000 then 0x1024 else 0,
   fun i => if i = rPC then 0x2FFF else if i = r1 then 1 else 0⟩

/-- Initial state with an Add immediate instruction whose imm5 field has
    the sign bit set: 0x1030 decodes to op 1, dst 0, srcA 0, flag 1,
    srcB 0b10000 = 16. -/
def addNegImmVM : VM :=
  ⟨fun a => if a = 0x3000 then 0x1030 else 0,
   fun i => if i = rPC then 0x2FFF else 0⟩

/-- Initial state fetching an RTI instruction (opcode 0x8). -/
def rtiVM : VM :=
  ⟨fun a => if a = 0x3000 then 0x8000 else 0,
   fun i => if i = rPC then 0x2FFF else 0⟩

/-- Initial state fetching a RES instruction (opcode 0xD). -/
def resVM : VM :=
  ⟨fun a => if a = 0x3000 then 0xD000 else 0,
   fun i => if i = rPC then 0x2FFF else 0⟩

/-- Observation of one step: the continue flag together with R0, the
    condition flag register and the PC of the resulting state. -/
def stepObs (vm : VM) : Option (Bool × Nat × Nat × Nat) :=
  (stepBody vm).map fun res => (res.2, res.1.registers r0, res.1.registers rCD, res.1.registers rPC)

/-! Theorems. -/

/-- C1: the claim states that signExtend leaves the low bitWidth bits of
    its argument intact and in particular that signExtend(0b11111, 5) is
    0xFFFF.  The code instead overwrites x wholesale with 0xFFFF << count
    in the sign branch, yielding 0xFFE0 at that input, and returns x
    unchanged (not masked to its low bits) in the other branch, as the
    evaluation at 0b100000 shows. -/
theorem signExtend_discards_low_bits :
    signExtend 0b11111 5 = 0xFFE0 ∧ signExtend 0b11111 5 ≠ 0xFFFF ∧
    signExtend 0b00001 5 = 0x0001 ∧ signExtend 0b01111 5 = 0x000F ∧
    signExtend 0b100000 5 = 0b100000 := by
  decide

/-- C2: the claim states that memory holds 65536 words and that read and
    write are total over the whole 16-bit address space.  The code
    allocates make([]uint16, math.MaxUint16) = 65535 words, so address
    0xFFFF is out of range and both operations panic there. -/
theorem memory_top_address_out_of_range :
    ∀ (m : Mem) (v : Nat), read m 0xFFFF = none ∧ write m 0xFFFF v = none := by
  intro m v
  constructor <;> simp [read, write, memLen]

/-- C3: the claim states that an ADD with mode bit 1 stores
    src1 + signExtend(imm5, 5).  Evaluating one step on the instruction
    0x1030 (op 1, dst R0, srcA R0, flag 1, imm5 0b10000) from R0 = 0
    shows the code stores the raw field 16; the claimed value, with
    imm5 = 0b10000 sign extended as a twos complement field, would be
    0xFFF0, and even the repository`s own signExtend yields 0xFFE0. -/
theorem add_immediate_unsigned :
    stepObs addNegImmVM = some (true, 16, flPOS, 0x3000) ∧
    signExtend 0b10000 5 = 0xFFE0 ∧ (16 : Nat) ≠ 0xFFF0 ∧ (16 : Nat) ≠ 0xFFE0 :=
  ⟨rfl, by decide, by decide, by decide⟩

/-- C4 counterexample: with 0x1024 at 0x3000, R1 = 1 and PC = 0x2FFF, one
    step does not produce R0 = 5, flags P and PC = 0x3001 as claimed. -/
theorem step_scenario_counterexample :
    stepObs e2eVM ≠ some (true, 5, flPOS, 0x3001) := by
  decide

/-- C4 amended: 0x1024 decodes to op 1, dst R0, srcA R0, flag 1, imm 4
    (not srcA R1 as the claimed mnemonic suggests), so one step from the
    claimed start state yields R0 = 4, condition flags flPOS, and leaves
    PC = 0x3000, the address of the executed instruction, because the
    loop increments PC before the fetch. -/
theorem step_scenario_actual :
    stepObs e2eVM = some (true, 4, flPOS, 0x3000) := rfl

/-- C6: the claim states that decode dispatches on the opcode and
    extracts per-opcode fields (an 11-bit offset for JSR, an 8-bit trap
    vector for TRAP, a 9-bit pcOffset for BR).  The code extracts one
    fixed five-tuple of bit ranges for every opcode: on the JSR word
    0x4FFF it yields (4, 7, 7, 1, 31) with no 11-bit field (0x7FF), on
    the TRAP word 0xF025 it yields (15, 0, 0, 1, 5) with no 8-bit vector
    (0x25), and on the BR word 0x0FFF it yields (0, 7, 7, 1, 31) with no
    9-bit offset (0x1FF). -/
theorem decode_uniform_five_tuple :
    decode 0x4FFF = (4, 7, 7, 1, 31) ∧ decode 0xF025 = (15, 0, 0, 1, 5) ∧
    decode 0x0FFF = (0, 7, 7, 1, 31) := by
  decide

/-- C7: the claim states that read intercepts 0xFE00 and 0xFE02, serving
    a keyboard status bit and a consumed input character.  The code`s
    read returns the stored word at every in-range address, the two
    memory mapped register constants are never consulted, and read is a
    pure function of the memory contents, so a second consecutive read
    returns the same stored word and nothing is consumed. -/
theorem read_returns_stored_at_mmio :
    ∀ m : Mem, read m rKBSR = some (m rKBSR) ∧ read m rKBDR = some (m rKBDR) := by
  intro m
  constructor <;> simp [read, rKBSR, rKBDR, memLen]

/-- C8: the claim states that decoding RTI (0x8) or RES (0xD) raises a
    fault and stops the run loop.  Evaluating one step on 0x8000 and on
    0xD000 shows both are empty switch cases: the loop continue flag is
    true, and R0 and the condition flag register are untouched; the PC
    moved only by the pre-increment of the loop itself. -/
theorem rti_res_step_continues :
    stepObs rtiVM = some (true, 0, 0, 0x3000) ∧
    stepObs resVM = some (true, 0, 0, 0x3000) :=
  ⟨rfl, rfl⟩

/-- Arithmetic form of swap on 16-bit words: the low byte moves up and
    the high byte moves down. -/
theorem swap_eq_bytes (x : Nat) (hx : x < 65536) :
    swap x = 256 * (x % 256) + x / 256 := by
  have h256 : (2 : Nat) ^ 8 = 256 := by norm_num
  have h1 : x <<< 8 = x * 256 := by rw [Nat.shiftLeft_eq, h256]
  have h2 : x >>> 8 = x / 256 := by rw [Nat.shiftRight_eq_div_pow, h256]
  have h3 : x * 256 % 65536 = x % 256 * 256 := by
    have h65536 : (65536 : Nat) = 256 * 256 := by norm_num
    rw [h65536, Nat.mul_mod_mul_right]
  have h4 : x / 256 < 2 ^ 8 := by rw [h256]; omega
  unfold swap
  rw [h1, h2, h3, Nat.mul_comm (x % 256) 256]
  have h5 := Nat.mul_add_lt_is_or h4 (x % 256)
  rw [h256] at h5
  exact h5.symm

/-- C9: swap, the byte-swap helper, is an involution on 16-bit words. -/
theorem swap_involution : ∀ x : Nat, x < 65536 → swap (swap x) = x := by
  intro x hx
  have hb : 256 * (x % 256) + x / 256 < 65536 := by omega
  rw [swap_eq_bytes x hx, swap_eq_bytes _ hb]
  omega

/-- C9 witness: the involution evaluated at 0xBEEF. -/
theorem swap_involution_witness :
    (0xBEEF : Nat) < 65536 ∧ swap (swap 0xBEEF) = 0xBEEF :=
  ⟨by decide, swap_involution 0xBEEF (by decide)⟩

/-- C5: updateFlag always succeeds on a register index below rCN, stores
    in the condition flag register flZRO when the examined value is zero,
    flNEG when its bit 15 is set, and flPOS otherwise; the stored value
    is always exactly one of the three one-hot flag constants, it is a
    function of the examined value alone, and every other register is
    unchanged. -/
theorem updateFlag_flags :
    ∀ (regs : Regs) (f : Nat), f < rCN → regs f < 65536 →
    ∃ regs1, updateFlag regs f = some regs1 ∧
      regs1 rCD = (if regs f = 0 then flZRO
                   else if Nat.testBit (regs f) 15 then flNEG else flPOS) ∧
      (regs1 rCD = flPOS ∨ regs1 rCD = flZRO ∨ regs1 rCD = flNEG) ∧
      (∀ i, i ≠ rCD → regs1 i = regs i) := by
  intro regs f hf hb
  have hr : rget regs f = some (regs f) := by simp [rget, hf]
  have hdiv : regs f >>> 15 = regs f / 32768 := by
    rw [Nat.shiftRight_eq_div_pow]
  have htb : Nat.testBit (regs f) 15 = decide (regs f / 32768 % 2 = 1) := by
    rw [Nat.testBit_to_div_mod]
  by_cases h0 : regs f = 0
  · refine ⟨fun j => if j = rCD then flZRO else regs j, ?_, ?_, ?_, ?_⟩
    · simp [updateFlag, hr, h0, rset, rCD, rCN]
    · simp [h0]
    · simp
    · intro i hi
      simp [hi]
  · have hd : regs f / 32768 = 0 ∨ regs f / 32768 = 1 := by omega
    rcases hd with hd | hd
    · refine ⟨fun j => if j = rCD then flPOS else regs j, ?_, ?_, ?_, ?_⟩
      · simp [updateFlag, hr, h0, hdiv, hd, rset, rCD, rCN]
      · simp [h0, htb, hd]
      · simp
      · intro i hi
        simp [hi]
    · refine ⟨fun j => if j = rCD then flNEG else regs j, ?_, ?_, ?_, ?_⟩
      · simp [updateFlag, hr, h0, hdiv, hd, rset, rCD, rCN]
      · simp [h0, htb, hd]
      · simp
      · intro i hi
        simp [hi]

/-- C5 witness: updateFlag applied to registers all holding 5 at index 0
    stores flPOS and leaves the other registers alone. -/
theorem updateFlag_flags_witness :
    (0 : Nat) < rCN ∧ (5 : Nat) < 65536 ∧
    (∃ regs1, updateFlag (fun _ => 5) 0 = some regs1 ∧
      regs1 rCD = (if (5 : Nat) = 0 then flZRO
                   else if Nat.testBit 5 15 then flNEG else flPOS) ∧
      (regs1 rCD = flPOS ∨ regs1 rCD = flZRO ∨ regs1 rCD = flNEG) ∧
      (∀ i, i ≠ rCD → regs1 i = 5)) :=
  ⟨by decide, by decide, updateFlag_flags (fun _ => 5) 0 (by decide) (by decide)⟩

/-- A successful register store changes no index other than the stored one. -/
theorem rset_frame (regs : Regs) (i v : Nat) (regs1 : Regs)
    (h : rset regs i v = some regs1) : ∀ j, j ≠ i → regs1 j = regs j := by
  unfold rset at h
  split at h
  · injection h with h1
    subst h1
    intro j hj
    simp [hj]
  · exact Option.noConfusion h

/-- A successful updateFlag changes no register other than rCD. -/
theorem updateFlag_frame (regs : Regs) (f : Nat) (regs1 : Regs)
    (h : updateFlag regs f = some regs1) : ∀ j, j ≠ rCD → regs1 j = regs j := by
  unfold updateFlag at h
  rcases hr : rget regs f with _ | v
  · rw [hr] at h
    exact Option.noConfusion h
  · rw [hr, Option.some_bind] at h
    split at h
    · exact rset_frame _ _ _ _ h
    · split at h
      · exact rset_frame _ _ _ _ h
      · exact rset_frame _ _ _ _ h

/-- The Add case never writes the PC register: its stores target dst, a
    3-bit field, and rCD. -/
theorem executeAdd_pc (regs : Regs) (dst srcA flag srcB : Nat) (hdst : dst ≤ 7)
    (regs3 : Regs) (h : executeAdd regs dst srcA flag srcB = some regs3) :
    regs3 rPC = regs rPC := by
  unfold executeAdd at h
  rw [Option.bind_eq_some] at h
  obtain ⟨regs2, hinner, hupd⟩ := h
  have h3 : regs3 rPC = regs2 rPC :=
    updateFlag_frame _ _ _ hupd rPC (by unfold rPC rCD; omega)
  have h2 : regs2 rPC = regs rPC := by
    split at hinner
    · rw [Option.bind_eq_some] at hinner
      obtain ⟨a, hga, hset⟩ := hinner
      exact rset_frame _ _ _ _ hset rPC (by unfold rPC; omega)
    · rw [Option.bind_eq_some] at hinner
      obtain ⟨a, hga, hinner2⟩ := hinner
      rw [Option.bind_eq_some] at hinner2
      obtain ⟨b, hgb, hset⟩ := hinner2
      exact rset_frame _ _ _ _ hset rPC (by unfold rPC; omega)
  exact h3.trans h2

/-- No case of the switch writes the PC register. -/
theorem execute_pc (regs : Regs) (op dst srcA flag srcB : Nat) (hdst : dst ≤ 7)
    (res : Regs × Bool) (h : execute regs op dst srcA flag srcB = some res) :
    res.1 rPC = regs rPC := by
  unfold execute at h
  by_cases hc0 : op = 0x0
  · rw [if_pos hc0] at h
    injection h with h2
    subst h2
    rfl
  rw [if_neg hc0] at h
  by_cases hc1 : op = 0x1
  · rw [if_pos hc1] at h
    rw [Option.map_eq_some'] at h
    obtain ⟨regs3, hadd, hres⟩ := h
    subst hres
    exact executeAdd_pc _ _ _ _ _ hdst _ hadd
  rw [if_neg hc1] at h
  by_cases hc2 : op = 0x2
  · rw [if_pos hc2] at h
    injection h with h2
    subst h2
    rfl
  rw [if_neg hc2] at h
  by_cases hc3 : op = 0x3
  · rw [if_pos hc3] at h
    injection h with h2
    subst h2
    rfl
  rw [if_neg hc3] at h
  by_cases hc4 : op = 0x4
  · rw [if_pos hc4] at h
    injection h with h2
    subst h2
    rfl
  rw [if_neg hc4] at h
  by_cases hc5 : op = 0x5
  · rw [if_pos hc5] at h
    injection h with h2
    subst h2
    rfl
  rw [if_neg hc5] at h
  by_cases hc6 : op = 0x6
  · rw [if_pos hc6] at h
    injection h with h2
    subst h2
    rfl
  rw [if_neg hc6] at h
  by_cases hc7 : op = 0x7
  · rw [if_pos hc7] at h
    injection h with h2
    subst h2
    rfl
  rw [if_neg hc7] at h
  by_cases hc8 : op = 0x8
  · rw [if_pos hc8] at h
    injection h with h2
    subst h2
    rfl
  rw [if_neg hc8] at h
  by_cases hc9 : op = 0x9
  · rw [if_pos hc9] at h
    injection h with h2
    subst h2
    rfl
  rw [if_neg hc9] at h
  by_cases hc10 : op = 0xA
  · rw [if_pos hc10] at h
    injection h with h2
    subst h2
    rfl
  rw [if_neg hc10] at h
  by_cases hc11 : op = 0xB
  · rw [if_pos hc11] at h
    injection h with h2
    subst h2
    rfl
  rw [if_neg hc11] at h
  by_cases hc12 : op = 0xC
  · rw [if_pos hc12] at h
    injection h with h2
    subst h2
    rfl
  rw [if_neg hc12] at h
  by_cases hc13 : op = 0xD
  · rw [if_pos hc13] at h
    injection h with h2
    subst h2
    rfl
  rw [if_neg hc13] at h
  by_cases hc14 : op = 0xE
  · rw [if_pos hc14] at h
    injection h with h2
    subst h2
    rfl
  rw [if_neg hc14] at h
  by_cases hc15 : op = 0xF
  · rw [if_pos hc15] at h
    injection h with h2
    subst h2
    rfl
  rw [if_neg hc15] at h
  injection h with h2
  subst h2
  rfl

/-- A continuing iteration leaves the PC at the pre-incremented value,
    which the bounds check has verified to be below len(memory). -/
theorem stepBody_continue (vm vm1 : VM) (h : stepBody vm = some (vm1, true)) :
    vm1.registers rPC = (vm.registers rPC + 1) % 65536 ∧
    (vm.registers rPC + 1) % 65536 < memLen := by
  have hr : rget vm.registers rPC = some (vm.registers rPC) := by
    simp [rget, rPC, rCN]
  have hs : rset vm.registers rPC ((vm.registers rPC + 1) % 65536) =
      some (fun j => if j = rPC then (vm.registers rPC + 1) % 65536 else vm.registers j) := by
    simp [rset, rPC, rCN]
  unfold stepBody at h
  rw [hr, Option.some_bind] at h
  simp only [hs, Option.some_bind] at h
  by_cases hbound : memLen ≤ (vm.registers rPC + 1) % 65536
  · rw [if_pos hbound] at h
    simp at h
  · rw [if_neg hbound] at h
    have hlt : (vm.registers rPC + 1) % 65536 < memLen := by omega
    have hread : read vm.memory ((vm.registers rPC + 1) % 65536) =
        some (vm.memory ((vm.registers rPC + 1) % 65536)) := by
      simp [read, hlt]
    rw [hread, Option.some_bind] at h
    simp only [decode, Option.bind_eq_some] at h
    obtain ⟨res, hex, hsome⟩ := h
    injection hsome with h2
    have hvm : (⟨vm.memory, res.1⟩ : VM) = vm1 := congrArg Prod.fst h2
    refine ⟨?_, hlt⟩
    rw [← hvm]
    show res.1 rPC = (vm.registers rPC + 1) % 65536
    have hdst : (vm.memory ((vm.registers rPC + 1) % 65536) >>> 9) &&& 0x7 ≤ 7 :=
      Nat.and_le_right
    rw [execute_pc _ _ _ _ _ _ hdst _ hex]
    simp

/-- Unfolding equation for one unit of fuel. -/
theorem run_succ (fuel : Nat) (vm : VM) :
    run (fuel + 1) vm =
      match stepBody vm with
      | none => RunOutcome.panicked
      | some (vm1, false) => RunOutcome.finished vm1
      | some (vm1, true) => run fuel vm1 := rfl

/-- While the PC is below len(memory), the loop ends within
    len(memory) - PC further iterations: each continuing iteration moves
    the PC up by exactly one and the bounds check stops the loop at
    len(memory). -/
theorem run_bounded : ∀ (n : Nat) (vm : VM), vm.registers rPC < memLen →
    memLen - vm.registers rPC ≤ n → run n vm ≠ RunOutcome.fuelOut := by
  intro n
  induction n with
  | zero =>
    intro vm hlt hle
    exfalso
    unfold memLen at hlt hle
    omega
  | succ n ih =>
    intro vm hlt hle
    rw [run_succ]
    rcases hstep : stepBody vm with _ | ⟨vm1, b⟩
    · show RunOutcome.panicked ≠ RunOutcome.fuelOut
      exact fun hcon => RunOutcome.noConfusion hcon
    · cases b
      · show RunOutcome.finished vm1 ≠ RunOutcome.fuelOut
        exact fun hcon => RunOutcome.noConfusion hcon
      · have hc := stepBody_continue vm vm1 hstep
        have hmod : (vm.registers rPC + 1) % 65536 = vm.registers rPC + 1 := by
          unfold memLen at hlt
          omega
        show run n vm1 ≠ RunOutcome.fuelOut
        refine ih vm1 ?_ ?_
        · rw [hc.1]
          exact hc.2
        · rw [hc.1, hmod]
          unfold memLen at hle ⊢
          omega

/-- C10: from any state whose PC holds a 16-bit value, the event loop of
    the file with the bounds check finishes within 65536 iterations: it
    never exhausts that fuel bound, whatever the memory contents, because
    no switch case writes the PC, each iteration adds exactly one to it,
    and the loop breaks once the PC reaches len(memory).  A Go runtime
    panic (outcome panicked) also ends execution. -/
theorem run_loop_terminates :
    ∀ vm : VM, vm.registers rPC < 65536 → run 65536 vm ≠ RunOutcome.fuelOut := by
  intro vm hp
  by_cases hlt : vm.registers rPC < memLen
  · refine run_bounded 65536 vm hlt ?_
    unfold memLen
    omega
  · have hp65535 : vm.registers rPC = 65535 := by
      unfold memLen at hlt
      omega
    have h65536 : (65536 : Nat) = 65535 + 1 := rfl
    rw [h65536, run_succ]
    rcases hstep : stepBody vm with _ | ⟨vm1, b⟩
    · show RunOutcome.panicked ≠ RunOutcome.fuelOut
      exact fun hcon => RunOutcome.noConfusion hcon
    · cases b
      · show RunOutcome.finished vm1 ≠ RunOutcome.fuelOut
        exact fun hcon => RunOutcome.noConfusion hcon
      · have hc := stepBody_continue vm vm1 hstep
        have hpc0 : vm1.registers rPC = 0 := by
          rw [hc.1, hp65535]
        show run 65535 vm1 ≠ RunOutcome.fuelOut
        refine run_bounded 65535 vm1 ?_ ?_
        · rw [hpc0]
          unfold memLen
          omega
        · rw [hpc0]
          unfold memLen
          omega

/-- C10 witness: the termination bound applied to the initial state of
    main, with zeroed memory and the PC at pcStart. -/
theorem run_loop_terminates_witness :
    (⟨fun _ => 0, fun i => if i = rPC then pcStart else 0⟩ : VM).registers rPC < 65536 ∧
    run 65536 ⟨fun _ => 0, fun i => if i = rPC then pcStart else 0⟩ ≠ RunOutcome.fuelOut :=
  ⟨by decide, run_loop_terminates _ (by decide)⟩

end LC3
